import Mathlib

/-!
Verification of the task state engine of `src/app/(tabs)/index.tsx`
(a single-screen React Native to-do list).

The engine state is the `taskList : Task[]` React state.  Each mutator
(`addTask`, `updateTask`, `deleteTask`, `toggleTaskCompletion`, the three
sort handlers) replaces the list; we embed each as a pure function from the
old list (plus the ambient inputs: the text fields, the clock, the fresh
random key) to the new list.  JavaScript `Array.prototype.sort` with a
comparator is a stable sort (ES2019), and a stable sort by a total preorder
is extensionally unique, so it is embedded as `List.insertionSort`, which
Mathlib proves stable.  `String.prototype.trim` and `toLowerCase` are
embedded character-wise; `localeCompare` between the category keys is
embedded as lexicographic string comparison.
-/

namespace Todo

/-- Whitespace predicate used to model JavaScript `String.prototype.trim`. -/
def isWs (c : Char) : Bool := c.isWhitespace

/-- Drop leading and trailing whitespace from a character list. -/
def trimChars (l : List Char) : List Char :=
  ((l.dropWhile isWs).reverse.dropWhile isWs).reverse

/-- Model of JavaScript `String.prototype.trim`. -/
def jsTrim (s : String) : String := ⟨trimChars s.data⟩

/-- Model of JavaScript `String.prototype.toLowerCase` (character-wise). -/
def jsToLower (s : String) : String := ⟨s.data.map Char.toLower⟩

/-- `value.isPrefixOf`-style check on character lists (first argument is the
candidate leading segment). -/
def leadsWith : List Char → List Char → Bool
  | [], _ => true
  | _ :: _, [] => false
  | a :: as, b :: bs => a == b && leadsWith as bs

/-- Model of JavaScript `String.prototype.includes`: does `needle` occur
contiguously inside `hay`? -/
def occursIn : List Char → List Char → Bool
  | _, [] => true
  | [], _ :: _ => false
  | x :: xs, y :: ys => leadsWith (y :: ys) (x :: xs) || occursIn xs (y :: ys)

/-- `hay.includes(needle)` on strings. -/
def strIncludes (hay needle : String) : Bool := occursIn hay.data needle.data

/-- The `priority` field: `'low' | 'medium' | 'high'`. -/
inductive Priority where
  | low
  | medium
  | high
deriving DecidableEq, Repr

/-- Model of a JavaScript `Date`: a day index (days since an arbitrary epoch)
plus the milliseconds elapsed within that day.  `setHours(0, 0, 0, 0)` zeroes
the within-day part; `getTime()` is the total millisecond count, and JS
`Date` comparison compares `getTime()`. -/
structure Date where
  day : Int
  ms : Int
deriving DecidableEq, Repr

/-- `getTime()` of the modelled date. -/
def Date.getTime (d : Date) : Int := d.day * 86400000 + d.ms

/-- `setHours(0, 0, 0, 0)`: zero the time-of-day component. -/
def Date.stripTime (d : Date) : Date := { d with ms := 0 }

/-- The `Task` interface of the source (line 16-24). -/
structure Task where
  key : String
  value : String
  completed : Bool
  createdAt : Date
  priority : Priority
  dueDate : Option Date
  category : Option String
deriving DecidableEq, Repr

/-- The stored category produced by `category.trim() || undefined`
(source lines 54 and 87): JavaScript `||` treats the empty string as falsy,
so an empty trim result is stored as `undefined` (here `none`). -/
def trimOrNone (category : String) : Option String :=
  if jsTrim category = "" then none else some (jsTrim category)

/-- Embedding of `addTask` (source lines 45-63).  The fresh key produced by
`Math.random().toString()` and the clock value `new Date()` are ambient
inputs, passed as parameters.  The guard is `task.trim() !== ''`; note the
stored `value` is the original `text`, not its trim. -/
def addTask (newKey : String) (now : Date) (text : String) (priority : Priority)
    (dueDate : Option Date) (category : String) (taskList : List Task) : List Task :=
  if jsTrim text ≠ "" then
    taskList ++ [{ key := newKey, value := text, completed := false, createdAt := now,
                   priority := priority, dueDate := dueDate,
                   category := trimOrNone category }]
  else taskList

/-- Embedding of `updateTask` (source lines 77-100).  `currentTaskKey` has
type `string | null`; the JavaScript guard `if (currentTaskKey)` is falsy
both on `null` and on the empty string. -/
def updateTask (currentTaskKey : Option String) (text : String) (priority : Priority)
    (dueDate : Option Date) (category : String) (taskList : List Task) : List Task :=
  match currentTaskKey with
  | none => taskList
  | some k =>
    if k = "" then taskList
    else
      taskList.map fun taskItem =>
        if taskItem.key = k then
          { taskItem with value := text, priority := priority, dueDate := dueDate,
                          category := trimOrNone category }
        else taskItem

/-- Embedding of `deleteTask` (source lines 102-104). -/
def deleteTask (key : String) (taskList : List Task) : List Task :=
  taskList.filter fun t => t.key != key

/-- Embedding of `toggleTaskCompletion` (source lines 106-112). -/
def toggleTaskCompletion (key : String) (taskList : List Task) : List Task :=
  taskList.map fun taskItem =>
    if taskItem.key = key then { taskItem with completed := !taskItem.completed }
    else taskItem

/-- The `priorityOrder` table of `sortTasksByPriority` (source line 117). -/
def priorityOrder : Priority → Nat
  | .high => 1
  | .medium => 2
  | .low => 3

/-- A stable sort of the task list by a key drawn from a linear order.  This
models `[...taskList].sort((a, b) => cmp(k(a), k(b)))` for JavaScript's
stable `Array.prototype.sort`. -/
def sortByKey {β : Type} [LinearOrder β] (k : Task → β) (l : List Task) : List Task :=
  List.insertionSort (fun a b => k a ≤ k b) l

/-- Embedding of `sortTasksByPriority` (source lines 116-119). -/
def sortTasksByPriority (taskList : List Task) : List Task :=
  sortByKey (fun t => priorityOrder t.priority) taskList

/-- The date key of `sortTasksByDate` (source lines 121-127):
`a.dueDate || a.createdAt`, then `getTime()`.  A JS `Date` object is always
truthy, so `||` falls back to `createdAt` exactly when `dueDate` is absent. -/
def dateKey (t : Task) : Int := (t.dueDate.getD t.createdAt).getTime

/-- Embedding of `sortTasksByDate` (source lines 121-127). -/
def sortTasksByDate (taskList : List Task) : List Task :=
  sortByKey dateKey taskList

/-- The category key of `sortTasksByCategory` (source lines 131-132):
`a.category || 'zzz'`.  JavaScript `||` treats both `undefined` and the
empty string as falsy. -/
def catKey (t : Task) : String :=
  match t.category with
  | none => "zzz"
  | some c => if c = "" then "zzz" else c

/-- Embedding of `sortTasksByCategory` (source lines 129-135), with
`localeCompare` embedded as lexicographic comparison of the character
sequences. -/
def sortTasksByCategory (taskList : List Task) : List Task :=
  sortByKey (fun t => (catKey t).data) taskList

/-- Embedding of the `filteredTasks` derivation (source lines 137-149).
`filt` is the completion filter string (`'all' | 'active' | 'Task completed'`);
`selectedCategoryFilter` is `'all'`, `'uncategorized'`, or a category name.
JS `!task.category` is true when the category is `undefined` or `""`, and
`task.category === selectedCategoryFilter` is false when it is `undefined`. -/
def filteredTasks (searchQuery filt selectedCategoryFilter : String)
    (taskList : List Task) : List Task :=
  taskList.filter fun task =>
    let matchesSearch := strIncludes (jsToLower task.value) (jsToLower searchQuery)
    let matchesFilter := filt == "all" || (filt == "Task completed" && task.completed)
      || (filt == "active" && !task.completed)
    let matchesCategory := selectedCategoryFilter == "all"
      || (selectedCategoryFilter == "uncategorized" &&
            (match task.category with | none => true | some c => c == ""))
      || (match task.category with | none => false | some c => c == selectedCategoryFilter)
    matchesSearch && matchesFilter && matchesCategory

/-- Embedding of `getDueDateStatus` (source lines 159-169).  The result is
the literal the source returns (`null`, `'overdue'`, `'today'`, `'upcoming'`);
the spec names these `none`, `overdue`, `dueToday`, `upcoming`. -/
def getDueDateStatus (dueDate : Option Date) (now : Date) : Option String :=
  match dueDate with
  | none => none
  | some d =>
    let today := now.stripTime
    let due := d.stripTime
    if due.getTime < today.getTime then some "overdue"
    else if due.getTime = today.getTime then some "today"
    else some "upcoming"

/-- Error taxonomy of spec section 7. -/
inductive StoreError where
  | notFound
deriving DecidableEq, Repr

/-- Spec-side contract of `delete(id) -> success | NotFound` (spec section 4.1),
for comparison with the source's `deleteTask`. -/
def deleteSpec (id : String) (taskList : List Task) : Except StoreError (List Task) :=
  if taskList.any fun t => t.key == id then .ok (taskList.filter fun t => t.key != id)
  else .error .notFound

/-- Spec-side contract of `toggleCompletion(id) -> success | NotFound`
(spec section 4.1), for comparison with the source's `toggleTaskCompletion`. -/
def toggleSpec (id : String) (taskList : List Task) : Except StoreError (List Task) :=
  if taskList.any fun t => t.key == id then
    .ok (taskList.map fun t =>
      if t.key = id then { t with completed := !t.completed } else t)
  else .error .notFound

/-- Spec-side contract of `update(id, ...) -> success | NotFound`
(spec section 4.1), for comparison with the source's `updateTask`. -/
def updateSpec (id text : String) (priority : Priority) (dueDate : Option Date)
    (category : String) (taskList : List Task) : Except StoreError (List Task) :=
  if taskList.any fun t => t.key == id then
    .ok (taskList.map fun t =>
      if t.key = id then
        { t with value := text, priority := priority, dueDate := dueDate,
                 category := trimOrNone category }
      else t)
  else .error .notFound

/-- A stored category is either absent or a non-empty string without leading
or trailing whitespace (i.e. a trimmed non-empty string). -/
def GoodCat : Option String → Prop
  | none => True
  | some s => s ≠ "" ∧ (∀ c ∈ s.data.head?, isWs c = false) ∧
      (∀ c ∈ s.data.getLast?, isWs c = false)

/-- Every stored record's category satisfies `GoodCat`. -/
def CatInv (l : List Task) : Prop := ∀ t ∈ l, GoodCat t.category

/-- The store states reachable from the initial empty list through the
engine's mutators, for arbitrary ambient inputs (fresh keys, clock values,
field contents). -/
inductive Reachable : List Task → Prop where
  | init : Reachable []
  | add (k : String) (now : Date) (text : String) (p : Priority) (due : Option Date)
      (cat : String) {l : List Task} : Reachable l →
      Reachable (addTask k now text p due cat l)
  | upd (ck : Option String) (text : String) (p : Priority) (due : Option Date)
      (cat : String) {l : List Task} : Reachable l →
      Reachable (updateTask ck text p due cat l)
  | del (k : String) {l : List Task} : Reachable l → Reachable (deleteTask k l)
  | tog (k : String) {l : List Task} : Reachable l → Reachable (toggleTaskCompletion k l)
  | sortP {l : List Task} : Reachable l → Reachable (sortTasksByPriority l)
  | sortD {l : List Task} : Reachable l → Reachable (sortTasksByDate l)
  | sortC {l : List Task} : Reachable l → Reachable (sortTasksByCategory l)

/-- Positional statement of "every uncategorized task comes after every
categorized task". -/
def AbsentAfterPresent (l : List Task) : Prop :=
  ∀ i j : Fin l.length, (l.get i).category.isSome → (l.get j).category = none →
    (i : Nat) < (j : Nat)

/-- Example task A of spec section 8's scenario: priority low. -/
def exTaskA : Task :=
  { key := "A", value := "task A", completed := false, createdAt := ⟨0, 0⟩,
    priority := .low, dueDate := some ⟨7, 0⟩, category := none }

/-- Example task B of spec section 8's scenario: priority high. -/
def exTaskB : Task :=
  { key := "B", value := "task B", completed := false, createdAt := ⟨0, 0⟩,
    priority := .high, dueDate := some ⟨0, 0⟩, category := none }

/-- Example task C of spec section 8's scenario: priority medium. -/
def exTaskC : Task :=
  { key := "C", value := "task C", completed := false, createdAt := ⟨0, 0⟩,
    priority := .medium, dueDate := none, category := none }

/-- An uncategorized task. -/
def exTaskN : Task :=
  { key := "N", value := "no category", completed := false, createdAt := ⟨0, 0⟩,
    priority := .medium, dueDate := none, category := none }

/-- A task whose category name sorts lexicographically after the sentinel
string `"zzz"`. -/
def exTaskZ : Task :=
  { key := "Z", value := "zz task", completed := false, createdAt := ⟨0, 0⟩,
    priority := .medium, dueDate := none, category := some "zzzz" }

/-- A task with an ordinary category name. -/
def exTaskH : Task :=
  { key := "H", value := "house", completed := false, createdAt := ⟨0, 0⟩,
    priority := .medium, dueDate := none, category := some "home" }

/-! ### Helper lemmas -/

theorem occursIn_nil (xs : List Char) : occursIn xs [] = true := by
  cases xs <;> rfl

theorem map_key_miss {k : String} {l : List Task} (f : Task → Task)
    (h : ∀ t ∈ l, t.key ≠ k) :
    (l.map fun t => if t.key = k then f t else t) = l := by
  induction l with
  | nil => rfl
  | cons x xs ih =>
    have hx : x.key ≠ k := h x (List.mem_cons_self x xs)
    simp only [List.map_cons, if_neg hx]
    rw [ih fun t ht => h t (List.mem_cons_of_mem x ht)]

theorem deleteTask_miss {k : String} {l : List Task} (h : ∀ t ∈ l, t.key ≠ k) :
    deleteTask k l = l := by
  unfold deleteTask
  refine List.filter_eq_self.mpr fun t ht => ?_
  simpa using h t ht

theorem key_ne_of_mem_deleteTask {k : String} {l : List Task} {t : Task}
    (h : t ∈ deleteTask k l) : t.key ≠ k ∧ t ∈ l := by
  unfold deleteTask at h
  have h2 := List.mem_filter.mp h
  exact ⟨by simpa using h2.2, h2.1⟩

theorem toggleTaskCompletion_miss {k : String} {l : List Task}
    (h : ∀ t ∈ l, t.key ≠ k) : toggleTaskCompletion k l = l :=
  map_key_miss _ h

theorem updateTask_miss {k : String} (text : String) (p : Priority) (due : Option Date)
    (cat : String) {l : List Task} (h : ∀ t ∈ l, t.key ≠ k) :
    updateTask (some k) text p due cat l = l := by
  dsimp only [updateTask]
  by_cases hk : k = ""
  · rw [if_pos hk]
  · rw [if_neg hk]
    exact map_key_miss _ h

theorem head?_dropWhile_not (p : Char → Bool) (l : List Char) :
    ∀ c, (l.dropWhile p).head? = some c → p c = false := by
  induction l with
  | nil => intro c hc; simp [List.dropWhile] at hc
  | cons x xs ih =>
    intro c hc
    rw [List.dropWhile_cons] at hc
    by_cases hx : p x
    · rw [if_pos hx] at hc; exact ih c hc
    · rw [if_neg hx] at hc
      simp only [List.head?_cons, Option.some.injEq] at hc
      subst hc
      simpa using hx

theorem getLast?_dropWhile (p : Char → Bool) (l : List Char)
    (h : l.dropWhile p ≠ []) : (l.dropWhile p).getLast? = l.getLast? := by
  induction l with
  | nil => simp [List.dropWhile] at h
  | cons x xs ih =>
    rw [List.dropWhile_cons] at h ⊢
    by_cases hx : p x
    · rw [if_pos hx] at h ⊢
      have hxs : xs ≠ [] := by
        intro he; subst he; simp [List.dropWhile] at h
      rw [ih h]
      cases xs with
      | nil => exact absurd rfl hxs
      | cons y ys => rw [List.getLast?_cons_cons]
    · rw [if_neg hx]

theorem goodCat_trimOrNone (cat : String) : GoodCat (trimOrNone cat) := by
  unfold trimOrNone
  by_cases h : jsTrim cat = ""
  · simp [h, GoodCat]
  · rw [if_neg h]
    have hdata : (jsTrim cat).data = trimChars cat.data := rfl
    have hBne : (cat.data.dropWhile isWs).reverse.dropWhile isWs ≠ [] := by
      intro hB
      apply h
      apply String.ext
      rw [hdata]
      unfold trimChars
      rw [hB]
      rfl
    refine ⟨h, ?_, ?_⟩
    · intro c hc
      rw [hdata] at hc
      unfold trimChars at hc
      rw [List.head?_reverse, getLast?_dropWhile isWs _ hBne, List.getLast?_reverse] at hc
      exact head?_dropWhile_not isWs cat.data c hc
    · intro c hc
      rw [hdata] at hc
      unfold trimChars at hc
      rw [List.getLast?_reverse] at hc
      exact head?_dropWhile_not isWs (cat.data.dropWhile isWs).reverse c hc

theorem catKey_of_some {t : Task} {c : String} (hc : t.category = some c)
    (hne : c ≠ "") : catKey t = c := by
  simp [catKey, hc, hne]

theorem catKey_of_none {t : Task} (hc : t.category = none) : catKey t = "zzz" := by
  simp [catKey, hc]

theorem sortByKey_pairwise {β : Type} [LinearOrder β] (k : Task → β) (l : List Task) :
    List.Pairwise (fun a b => k a ≤ k b) (sortByKey k l) := by
  haveI : IsTotal Task fun a b => k a ≤ k b := ⟨fun a b => le_total (k a) (k b)⟩
  haveI : IsTrans Task fun a b => k a ≤ k b := ⟨fun _ _ _ hab hbc => le_trans hab hbc⟩
  exact List.sorted_insertionSort (fun a b => k a ≤ k b) l

theorem mem_sortByKey {β : Type} [LinearOrder β] (k : Task → β) {l : List Task} {t : Task} :
    t ∈ sortByKey k l ↔ t ∈ l :=
  List.mem_insertionSort _

theorem filter_orderedInsert {β : Type} [LinearOrder β] (k : Task → β) (pred : Task → Bool)
    (hpred : ∀ a b, pred a = true → pred b = true → k a = k b) (a : Task) :
    ∀ s : List Task, (List.orderedInsert (fun x y => k x ≤ k y) a s).filter pred =
      if pred a then a :: s.filter pred else s.filter pred
  | [] => by simp [List.orderedInsert, List.filter_cons]
  | b :: bs => by
    have ih := filter_orderedInsert k pred hpred a bs
    by_cases hab : k a ≤ k b
    · simp only [List.orderedInsert, if_pos hab, List.filter_cons]
    · simp only [List.orderedInsert, if_neg hab, List.filter_cons, ih]
      by_cases hpa : pred a = true
      · have hpb : pred b = false := by
          rcases Bool.eq_false_or_eq_true (pred b) with hb | hb
          · exact absurd (le_of_eq (hpred a b hpa hb)) hab
          · exact hb
        simp [hpa, hpb]
      · simp only [Bool.not_eq_true] at hpa
        simp [hpa]

theorem filter_sortByKey {β : Type} [LinearOrder β] (k : Task → β) (pred : Task → Bool)
    (hpred : ∀ a b, pred a = true → pred b = true → k a = k b) (l : List Task) :
    (sortByKey k l).filter pred = l.filter pred := by
  induction l with
  | nil => rfl
  | cons x xs ih =>
    unfold sortByKey at ih ⊢
    simp only [List.insertionSort]
    rw [filter_orderedInsert k pred hpred x _, ih, List.filter_cons]

/-! ### Claim theorems -/

/-- C1 counterexample: on the store `[exTaskA]` (whose only key is `"A"`) and
the absent id `"b"`, the spec contracts demand the result state `NotFound`,
but the source's `deleteTask`, `toggleTaskCompletion` and `updateTask`
return only the unchanged sequence: their result carries no error
indication at all (their codomain is the plain task list), so no `NotFound`
is signalled to the caller. -/
theorem c1_notfound_counterexample :
    (∀ t ∈ [exTaskA], t.key ≠ "b") ∧
    deleteSpec "b" [exTaskA] = .error .notFound ∧
    toggleSpec "b" [exTaskA] = .error .notFound ∧
    updateSpec "b" "x" .low none "" [exTaskA] = .error .notFound ∧
    deleteTask "b" [exTaskA] = [exTaskA] ∧
    toggleTaskCompletion "b" [exTaskA] = [exTaskA] ∧
    updateTask (some "b") "x" .low none "" [exTaskA] = [exTaskA] :=
  ⟨by decide, rfl, rfl, rfl, by decide, by decide, by decide⟩

/-- C1 (amended): for every store state and every id, after `delete(id)` the
id is absent, and a subsequent `update(id, ...)` or `toggleCompletion(id)`
is a silent no-op: it leaves the store's sequence exactly unchanged and
signals nothing (the operations have no error result channel). -/
theorem c1_absent_id_silent (id text : String) (p : Priority) (due : Option Date)
    (cat : String) (l : List Task) :
    updateTask (some id) text p due cat (deleteTask id l) = deleteTask id l ∧
    toggleTaskCompletion id (deleteTask id l) = deleteTask id l := by
  have habs : ∀ t ∈ deleteTask id l, t.key ≠ id :=
    fun t ht => (key_ne_of_mem_deleteTask ht).1
  exact ⟨updateTask_miss text p due cat habs, toggleTaskCompletion_miss habs⟩

/-- C10: for every store state and every id not present in the store,
`deleteTask`, `toggleTaskCompletion` and `updateTask` leave the store's
sequence exactly unchanged — they are atomic no-ops on an absent id. -/
theorem c10_absent_id_noop (key text : String) (p : Priority) (due : Option Date)
    (cat : String) (l : List Task) (h : ∀ t ∈ l, t.key ≠ key) :
    deleteTask key l = l ∧ toggleTaskCompletion key l = l ∧
    updateTask (some key) text p due cat l = l :=
  ⟨deleteTask_miss h, toggleTaskCompletion_miss h,
    updateTask_miss text p due cat h⟩

/-- Witness for C10 at the concrete store `[exTaskA]` and the absent id
`"X"`. -/
theorem c10_absent_id_noop_witness :
    deleteTask "X" [exTaskA] = [exTaskA] ∧
    toggleTaskCompletion "X" [exTaskA] = [exTaskA] ∧
    updateTask (some "X") "t" .low none "" [exTaskA] = [exTaskA] :=
  c10_absent_id_noop "X" "t" .low none "" [exTaskA] (by decide)

/-- C7: for every store state and every input text that trims to the empty
string, `addTask` performs no mutation: the stored sequence is returned
exactly unchanged (the embedding is a total function — nothing is thrown). -/
theorem c7_blank_create_noop (k : String) (now : Date) (text : String) (p : Priority)
    (due : Option Date) (cat : String) (l : List Task) (h : jsTrim text = "") :
    addTask k now text p due cat l = l := by
  unfold addTask
  simp [h]

/-- Witness for C7 with the whitespace-only text `"   "`. -/
theorem c7_blank_create_noop_witness :
    addTask "k" ⟨0, 0⟩ "   " .low none "" [exTaskA] = [exTaskA] :=
  c7_blank_create_noop "k" ⟨0, 0⟩ "   " .low none "" [exTaskA] (by decide)

/-- C3 counterexample: for the input text `" a "` (non-empty after
trimming), `addTask` appends a record whose `value` field is the original
`" a "`, not the trimmed `"a"`: create does NOT trim the text before
storing it. -/
theorem c3_trim_counterexample :
    jsTrim " a " ≠ "" ∧
    (addTask "k" ⟨0, 0⟩ " a " .medium none "" []).map Task.value = [" a "] ∧
    " a " ≠ jsTrim " a " := by
  refine ⟨by decide, by decide, by decide⟩

/-- C3 (amended): for every input text whose trim is non-empty, `addTask`
appends exactly one new record to the end of the sequence, and that
record's text field equals the input text exactly as given — the trim is
used only for the emptiness guard, not for the stored value. -/
theorem c3_create_appends (k : String) (now : Date) (text : String) (p : Priority)
    (due : Option Date) (cat : String) (l : List Task) (h : jsTrim text ≠ "") :
    ∃ t : Task, addTask k now text p due cat l = l ++ [t] ∧ t.value = text := by
  unfold addTask
  rw [if_pos h]
  exact ⟨_, rfl, rfl⟩

/-- Witness for C3 (amended) with the text `" a "`. -/
theorem c3_create_appends_witness :
    ∃ t : Task, addTask "k" ⟨0, 0⟩ " a " .medium none "" [] = [] ++ [t] ∧
      t.value = " a " :=
  c3_create_appends "k" ⟨0, 0⟩ " a " .medium none "" [] (by decide)

/-- C5: filtering with empty search text, completion filter `'all'` and
category filter `'all'` returns the input sequence unchanged. -/
theorem c5_filter_identity (l : List Task) :
    filteredTasks "" "all" "all" l = l := by
  unfold filteredTasks
  refine List.filter_eq_self.mpr fun t _ => ?_
  have hlow : (jsToLower "").data = [] := by decide
  simp only [strIncludes, hlow, occursIn_nil, Bool.true_and, Bool.and_true]
  simp

/-- C4: `getDueDateStatus` compares the date-only portions (time-of-day
zeroed on both operands) of the due date and of now.  It returns the
source's `null` (spec name `none`) when the due date is absent,
`'overdue'` when the due day is strictly earlier than today, `'today'`
(spec name `dueToday`) when it equals today, and `'upcoming'` when it is
strictly later — independently of either operand's time-of-day. -/
theorem c4_due_date_status (d now : Date) :
    getDueDateStatus none now = none ∧
    (getDueDateStatus (some d) now = some "overdue" ↔ d.day < now.day) ∧
    (getDueDateStatus (some d) now = some "today" ↔ d.day = now.day) ∧
    (getDueDateStatus (some d) now = some "upcoming" ↔ now.day < d.day) := by
  refine ⟨rfl, ?_, ?_, ?_⟩ <;>
  · simp only [getDueDateStatus, Date.stripTime, Date.getTime]
    split_ifs with h1 h2 <;> simp_all <;> omega

/-- C6: for every store state and every nonempty id present in the store,
`updateTask` keeps the sequence's length, leaves every record with a
different key exactly unchanged (hence positions are unchanged), and on
the matching record replaces `value`, `priority`, `dueDate` and `category`
(the latter by the trim/absence rule) while preserving `key`, `createdAt`
and `completed`.  Ids are nonempty since `Math.random().toString()` never
produces the empty string, which the `if (currentTaskKey)` guard would
discard. -/
theorem c6_update_frame (key text : String) (p : Priority) (due : Option Date)
    (cat : String) (l : List Task) (hk : key ≠ "") (hmem : key ∈ l.map Task.key) :
    (updateTask (some key) text p due cat l).length = l.length ∧
    ∀ (i : Nat) (hi : i < l.length) (hi2 : i < (updateTask (some key) text p due cat l).length),
      ((l.get ⟨i, hi⟩).key ≠ key →
        (updateTask (some key) text p due cat l).get ⟨i, hi2⟩ = l.get ⟨i, hi⟩) ∧
      ((l.get ⟨i, hi⟩).key = key →
        ((updateTask (some key) text p due cat l).get ⟨i, hi2⟩).key = (l.get ⟨i, hi⟩).key ∧
        ((updateTask (some key) text p due cat l).get ⟨i, hi2⟩).createdAt
          = (l.get ⟨i, hi⟩).createdAt ∧
        ((updateTask (some key) text p due cat l).get ⟨i, hi2⟩).completed
          = (l.get ⟨i, hi⟩).completed ∧
        ((updateTask (some key) text p due cat l).get ⟨i, hi2⟩).value = text ∧
        ((updateTask (some key) text p due cat l).get ⟨i, hi2⟩).priority = p ∧
        ((updateTask (some key) text p due cat l).get ⟨i, hi2⟩).dueDate = due ∧
        ((updateTask (some key) text p due cat l).get ⟨i, hi2⟩).category
          = trimOrNone cat) := by
  have heq : updateTask (some key) text p due cat l =
      l.map fun taskItem =>
        if taskItem.key = key then
          { taskItem with value := text, priority := p, dueDate := due,
                          category := trimOrNone cat }
        else taskItem := by
    dsimp only [updateTask]
    rw [if_neg hk]
  rw [heq]
  refine ⟨List.length_map l _, fun i hi hi2 => ⟨fun hne => ?_, fun hmatch => ?_⟩⟩
  · simp only [List.get_eq_getElem] at hne ⊢
    simp [List.getElem_map, hne]
  · simp only [List.get_eq_getElem] at hmatch ⊢
    simp [List.getElem_map, hmatch]

/-- Witness for C6: updating id `"A"` in `[exTaskA, exTaskB]`. -/
theorem c6_update_frame_witness :
    (updateTask (some "A") "new" .high none " home " [exTaskA, exTaskB]).length
      = ([exTaskA, exTaskB] : List Task).length :=
  (c6_update_frame "A" "new" .high none " home " [exTaskA, exTaskB]
    (by decide) (by decide)).1

/-- C8: sorting by priority, every task whose `priorityOrder` value is
smaller (high = 1, medium = 2, low = 3) precedes every task with a larger
value — so high precedes medium precedes low — ties keep their prior
relative order (the per-priority subsequences are exactly preserved), and
the spec's scenario `[A(low), B(high), C(medium)]` sorts to `[B, C, A]`. -/
theorem c8_sort_by_priority (l : List Task) :
    List.Pairwise (fun a b => priorityOrder a.priority ≤ priorityOrder b.priority)
      (sortTasksByPriority l) ∧
    (∀ p : Priority, (sortTasksByPriority l).filter (fun t => decide (t.priority = p))
        = l.filter fun t => decide (t.priority = p)) ∧
    sortTasksByPriority [exTaskA, exTaskB, exTaskC] = [exTaskB, exTaskC, exTaskA] := by
  refine ⟨sortByKey_pairwise _ l, fun p => ?_, by decide⟩
  exact filter_sortByKey (fun t => priorityOrder t.priority) _
    (fun a b ha hb => by
      have ha2 : a.priority = p := of_decide_eq_true ha
      have hb2 : b.priority = p := of_decide_eq_true hb
      show priorityOrder a.priority = priorityOrder b.priority
      rw [ha2, hb2]) l

/-- C2 counterexample: on the store `[exTaskN, exTaskZ]`, where `exTaskN`
has no category and `exTaskZ` has category `"zzzz"`, sorting by category
leaves the uncategorized task first: the absent category is encoded by the
sentinel string `"zzz"`, and `"zzz"` sorts before the real category name
`"zzzz"`.  So the claim's "absent after every present category, regardless
of the category names present" is false. -/
theorem c2_sentinel_counterexample :
    exTaskN.category = none ∧ exTaskZ.category = some "zzzz" ∧
    sortTasksByCategory [exTaskN, exTaskZ] = [exTaskN, exTaskZ] ∧
    ¬ AbsentAfterPresent (sortTasksByCategory [exTaskN, exTaskZ]) := by
  refine ⟨rfl, rfl, by decide, ?_⟩
  intro h
  exact absurd (h ⟨1, by decide⟩ ⟨0, by decide⟩ (by decide) (by decide)) (by decide)

/-- C2 (amended): `sortTasksByCategory` stably sorts by the key
`category || 'zzz'` under lexicographic comparison: the output is ordered
by that key and every per-key subsequence keeps its prior relative order.
The spec's placement — every uncategorized task after every categorized
task — holds provided every present category name is non-empty and
lexicographically strictly below the sentinel `"zzz"`; a present category
`≥ "zzz"` (such as `"zzzz"`) instead sorts after the uncategorized tasks. -/
theorem c2_sort_by_category (l : List Task)
    (h : ∀ t ∈ l, ∀ c, t.category = some c → c ≠ "" ∧ c.data < "zzz".data) :
    List.Pairwise (fun a b => (catKey a).data ≤ (catKey b).data)
      (sortTasksByCategory l) ∧
    (∀ v : List Char, (sortTasksByCategory l).filter (fun t => decide ((catKey t).data = v))
        = l.filter fun t => decide ((catKey t).data = v)) ∧
    AbsentAfterPresent (sortTasksByCategory l) := by
  refine ⟨sortByKey_pairwise _ l, fun v => ?_, ?_⟩
  · exact filter_sortByKey (fun t => (catKey t).data) _
      (fun a b ha hb => by
        have ha2 : (catKey a).data = v := of_decide_eq_true ha
        have hb2 : (catKey b).data = v := of_decide_eq_true hb
        show (catKey a).data = (catKey b).data
        rw [ha2, hb2]) l
  · intro i j hpres habs
    have hpair := List.pairwise_iff_get.mp (sortByKey_pairwise (fun t => (catKey t).data) l)
    obtain ⟨c, hc⟩ := Option.isSome_iff_exists.mp hpres
    have hmem : (sortTasksByCategory l).get i ∈ l :=
      (mem_sortByKey _).mp (List.get_mem _ i.1 i.2)
    obtain ⟨hcne, hclt⟩ := h _ hmem c hc
    have hki : catKey ((sortTasksByCategory l).get i) = c := catKey_of_some hc hcne
    have hkj : catKey ((sortTasksByCategory l).get j) = "zzz" := catKey_of_none habs
    rcases lt_trichotomy (i : Nat) (j : Nat) with hlt | heq | hgt
    · exact hlt
    · exfalso
      have hij : i = j := Fin.ext heq
      subst hij
      rw [habs] at hc
      exact Option.noConfusion hc
    · exfalso
      have hle : (catKey ((sortTasksByCategory l).get j)).data ≤
          (catKey ((sortTasksByCategory l).get i)).data := hpair j i hgt
      rw [hki, hkj] at hle
      exact absurd hclt (not_lt.mpr hle)

/-- Witness for C2 (amended) on the store `[exTaskH, exTaskN]` (category
`"home"` and no category). -/
theorem c2_sort_by_category_witness :
    AbsentAfterPresent (sortTasksByCategory [exTaskH, exTaskN]) :=
  (c2_sort_by_category [exTaskH, exTaskN] (by
    intro t ht c hc
    simp only [List.mem_cons, List.not_mem_nil, or_false] at ht
    rcases ht with rfl | rfl
    · have hc2 : c = "home" := by
        have : some "home" = some c := hc
        exact (Option.some.injEq _ _ ▸ this).symm
      subst hc2
      exact ⟨by decide, by decide⟩
    · exact absurd hc (by simp [exTaskN]))).2.2

/-- C9: in every reachable store state, every stored record's category is
either absent or a trimmed non-empty string (never `""`, never with
leading or trailing whitespace); moreover the stored category of create
and update is the trimmed input when that is non-empty and absence when
the trim result is empty. -/
theorem c9_category_invariant (l : List Task) (hr : Reachable l) :
    CatInv l ∧ (∀ cat, jsTrim cat = "" → trimOrNone cat = none) ∧
    (∀ cat, jsTrim cat ≠ "" → trimOrNone cat = some (jsTrim cat)) := by
  refine ⟨?_, fun cat hc => by simp [trimOrNone, hc], fun cat hc => by simp [trimOrNone, hc]⟩
  induction hr with
  | init => intro t ht; exact absurd ht (List.not_mem_nil t)
  | add k now text p due cat _ ih =>
    intro t ht
    unfold addTask at ht
    split at ht
    · rcases List.mem_append.mp ht with hin | hnew
      · exact ih t hin
      · rw [List.mem_singleton.mp hnew]
        exact goodCat_trimOrNone cat
    · exact ih t ht
  | upd ck text p due cat _ ih =>
    intro t ht
    match ck with
    | none => exact ih t ht
    | some k =>
      dsimp only [updateTask] at ht
      by_cases hk : k = ""
      · rw [if_pos hk] at ht
        exact ih t ht
      · rw [if_neg hk] at ht
        obtain ⟨a, ha, rfl⟩ := List.mem_map.mp ht
        by_cases hkey : a.key = k
        · rw [if_pos hkey]
          exact goodCat_trimOrNone cat
        · rw [if_neg hkey]
          exact ih a ha
  | del k _ ih =>
    intro t ht
    exact ih t (key_ne_of_mem_deleteTask ht).2
  | tog k _ ih =>
    intro t ht
    obtain ⟨a, ha, rfl⟩ := List.mem_map.mp ht
    by_cases hkey : a.key = k
    · rw [if_pos hkey]
      exact ih a ha
    · rw [if_neg hkey]
      exact ih a ha
  | sortP _ ih =>
    intro t ht
    exact ih t ((mem_sortByKey _).mp ht)
  | sortD _ ih =>
    intro t ht
    exact ih t ((mem_sortByKey _).mp ht)
  | sortC _ ih =>
    intro t ht
    exact ih t ((mem_sortByKey _).mp ht)

/-- Witness for C9: the store reached by one create with category
`"  home "` satisfies the invariant. -/
theorem c9_category_invariant_witness :
    CatInv (addTask "k" ⟨0, 0⟩ "buy milk" .low none "  home " []) :=
  (c9_category_invariant _ (Reachable.add "k" ⟨0, 0⟩ "buy milk" .low none
    "  home " Reachable.init)).1

end Todo
